import Mathlib

/-!
# EduGraph visualization core: shallow embedding and verification

This file embeds the concept-graph data model and the derived-view,
activation-sync, viewport and interaction logic of the EduGraph
repository (`src/components/EduGraph.tsx`, `src/components/VideoPlayer.tsx`
(`HierarchicalGraph`), `src/components/VideoView.tsx`) as executable Lean
definitions, and proves the spec-level properties about them.

Conventions of the embedding:
* JavaScript numbers are modelled as rationals (`ℚ`); the quantities
  involved (timestamps, sizes, zoom scales) are only ever compared or
  multiplied by small constants, so exact rational arithmetic is faithful.
* TypeScript string-literal union types (`category`, edge `type`) are
  modelled as `String`, exactly as they are represented at runtime.
* A JavaScript `Set` is modelled as a `List` used only through membership
  (`contains`); duplicates are irrelevant to every use site.
-/

namespace EduGraph

/-- Node record, `GraphNode` from `src/components/EduGraph.tsx`. -/
structure GraphNode where
  id : String
  label : String
  x : ℚ
  y : ℚ
  size : ℚ
  color : String
  timestamps : List ℚ
  description : String
  category : String
  isActive : Bool
deriving DecidableEq, Repr

/-- Edge record, `GraphEdge` from `src/components/EduGraph.tsx`. -/
structure GraphEdge where
  source : String
  target : String
  type : String
  strength : ℚ
deriving DecidableEq, Repr

/-! ## Activation recomputation (`handleTimeUpdate`)

`EduGraph.tsx` recomputes, on each clock tick at playback time `t`,
`isActive := node.timestamps.some(ts => Math.abs(ts - t) < 15)`;
`VideoView.tsx` does the same with a `5` second tolerance. -/

/-- One node's activation update: the body of the `map` inside
`handleTimeUpdate`, with the activation window as a parameter (15 in
`EduGraph.tsx`, 5 in `VideoView.tsx`). -/
def activateNode (window t : ℚ) (n : GraphNode) : GraphNode :=
  { n with isActive := n.timestamps.any (fun ts => |ts - t| < window) }

/-- Recomputation `updatedNodes` in `EduGraph.tsx`'s `handleTimeUpdate` (15 second window). -/
def eduGraphUpdateNodes (t : ℚ) (ns : List GraphNode) : List GraphNode :=
  ns.map (activateNode 15 t)

/-- Recomputation `updatedNodes` in `VideoView.tsx`'s `handleTimeUpdate` (5 second tolerance). -/
def videoViewUpdateNodes (t : ℚ) (ns : List GraphNode) : List GraphNode :=
  ns.map (activateNode 5 t)

/-! ## Viewport scales (`HierarchicalGraph` in `VideoPlayer.tsx`) -/

/-- The target scale computed by `focusOnNode`:
`Math.min(2.0, Math.max(1.2, currentScale * 1.3))`. -/
def focusTargetScale (currentScale : ℚ) : ℚ :=
  min 2 (max (6/5) (currentScale * (13/10)))

/-- Zoom-in button `handleZoomIn`: calls `scaleBy 1.5` on a freshly constructed
`d3.zoom()` behavior.  A fresh behavior's `scaleExtent` is the d3 default
`[0, ∞)`, so no clamping applies to the multiplication; only the behavior
installed by `initializeGraph` carries `scaleExtent([0.1, 4])`. -/
def handleZoomIn (k : ℚ) : ℚ := k * (3/2)

/-- Zoom-out button `handleZoomOut`: `scaleBy (1 / 1.5)` on a freshly constructed
`d3.zoom()` behavior, hence likewise unclamped. -/
def handleZoomOut (k : ℚ) : ℚ := k * (2/3)

/-! ## View-mode state machine (`HierarchicalGraph` in `VideoPlayer.tsx`) -/

/-- The `ViewMode` type of `HierarchicalGraph`. -/
inductive ViewModeT
  | overview
  | detailed (selectedNodeId : String)
deriving DecidableEq, Repr

/-- The effect of the node-click handler in `initializeGraph` on the view
mode: `setViewMode({type: 'detailed', selectedNodeId: d.id})` is executed
only under `if (viewMode.type === 'overview')`; in detailed mode the view
mode is left untouched. -/
def clickViewTransition (vm : ViewModeT) (clickedId : String) : ViewModeT :=
  match vm with
  | .overview => .detailed clickedId
  | .detailed x => .detailed x

/-! ## First-order (overview) nodes (`firstOrderNodes` in `VideoPlayer.tsx`) -/

/-- The `incomingEdges` set: every `edge.target`. -/
def incomingTargets (edges : List GraphEdge) : List String :=
  edges.map (·.target)

/-- The filter predicate of `firstOrderNodes`:
`hasNoIncomingEdges || isPrerequisite || isLargeNode`. -/
def firstOrderPred (edges : List GraphEdge) (n : GraphNode) : Bool :=
  let hasNoIncomingEdges := !(incomingTargets edges).contains n.id
  let isPrerequisite := n.category == "prerequisite"
  let isLargeNode := decide (18 ≤ n.size)
  hasNoIncomingEdges || isPrerequisite || isLargeNode

/-- Stable insertion into a size-descending list; on a size tie the
inserted (originally earlier) element is placed first, matching the
ECMAScript stable-sort guarantee for the comparator `(a, b) => b.size - a.size`. -/
def insertBySize (a : GraphNode) : List GraphNode → List GraphNode
  | [] => [a]
  | b :: l => if b.size ≤ a.size then a :: b :: l else b :: insertBySize a l

/-- Stable size-descending sort, the embedding of
`.sort((a, b) => b.size - a.size)` (ECMAScript `Array.prototype.sort` is
stable and its result with a consistent comparator is the unique stable
order, which insertion sort computes). -/
def sortBySizeDesc : List GraphNode → List GraphNode
  | [] => []
  | a :: l => insertBySize a (sortBySizeDesc l)

/-- Overview node sequence `firstOrderNodes` from `HierarchicalGraph`:
filter by `firstOrderPred`, then sort by size, largest first. -/
def firstOrderNodes (nodes : List GraphNode) (edges : List GraphEdge) :
    List GraphNode :=
  sortBySizeDesc (nodes.filter (firstOrderPred edges))

/-! ## Detail neighborhood (`getDetailedNodes` in `VideoPlayer.tsx`) -/

/-- Incidence test `edge.source === nodeId || edge.target === nodeId`. -/
def incident (e : GraphEdge) (nodeId : String) : Bool :=
  e.source == nodeId || e.target == nodeId

/-- For every edge incident to `nodeId`, both of its endpoints; the body of
the `edges.forEach` loops in `getDetailedNodes` (a `Set` modelled as a list
up to membership). -/
def endpointsOfIncident (edges : List GraphEdge) (nodeId : String) :
    List String :=
  (edges.filter (fun e => incident e nodeId)).flatMap (fun e => [e.source, e.target])

/-- Hop-one ids `connectedNodeIds`: the selected id itself plus the endpoints of every
edge incident to it. -/
def connectedIds (edges : List GraphEdge) (selectedNodeId : String) :
    List String :=
  selectedNodeId :: endpointsOfIncident edges selectedNodeId

/-- Hop-two ids `secondDegreeNodes`: endpoints of every edge incident to any id of
`connectedNodeIds`. -/
def secondDegreeIds (edges : List GraphEdge) (ids : List String) :
    List String :=
  ids.flatMap (fun i => endpointsOfIncident edges i)

/-- Union `allConnectedIds = new Set([...connectedNodeIds, ...secondDegreeNodes])`. -/
def allConnectedIds (edges : List GraphEdge) (selectedNodeId : String) :
    List String :=
  connectedIds edges selectedNodeId
    ++ secondDegreeIds edges (connectedIds edges selectedNodeId)

/-- Neighborhood computation `getDetailedNodes` from `HierarchicalGraph`: if the selected id has no
node, `{nodes: [], edges: []}`; otherwise the nodes whose id is connected
within the two expansion rounds, and the edges both of whose endpoints are
connected ids. -/
def getDetailedNodes (nodes : List GraphNode) (edges : List GraphEdge)
    (selectedNodeId : String) : List GraphNode × List GraphEdge :=
  match nodes.find? (fun n => n.id == selectedNodeId) with
  | none => ([], [])
  | some _ =>
    let ids := allConnectedIds edges selectedNodeId
    (nodes.filter (fun n => ids.contains n.id),
     edges.filter (fun e => ids.contains e.source && ids.contains e.target))

/-! ## Clock ticks and node clicks (`EduGraph.tsx` and `unnamed/part_000`) -/

/-- Clock tick `handleTimeUpdate` of `src/components/EduGraph.tsx`, restricted to its
effect on `videoData.nodes`: it recomputes the activation flags and calls
`setVideoData` unconditionally (the `Bool` records whether `setVideoData`
was invoked, i.e. whether the shared state was replaced). -/
def eduGraphTick (t : ℚ) (ns : List GraphNode) : List GraphNode × Bool :=
  (eduGraphUpdateNodes t ns, true)

/-- Clock tick `handleTimeUpdate` of the `unnamed/part_000` variant of `EduGraph.tsx`:
recomputes the activation flags, then calls `setVideoData` only when
`hasChanges`, i.e. when `updatedNodes.some((node, index) =>
node.isActive !== videoData.nodes[index].isActive)`. -/
def guardedTick (t : ℚ) (ns : List GraphNode) : List GraphNode × Bool :=
  let updatedNodes := eduGraphUpdateNodes t ns
  let hasChanges :=
    (updatedNodes.zip ns).any (fun p => p.1.isActive != p.2.isActive)
  if hasChanges then (updatedNodes, true) else (ns, false)

/-- The component state touched by `handleNodeClick` in `EduGraph.tsx`
(`selectedNode` and `currentTime`). -/
structure ClickState where
  currentTime : ℚ
  selectedNode : Option GraphNode
deriving DecidableEq, Repr

/-- Click handler `handleNodeClick` (identical in `EduGraph.tsx` and `unnamed/part_000`):
`setSelectedNode(node)`, then
`if (node.timestamps.length > 0) setCurrentTime(node.timestamps[0])`. -/
def handleNodeClick (st : ClickState) (node : GraphNode) : ClickState :=
  let st1 : ClickState := { st with selectedNode := some node }
  match node.timestamps with
  | t0 :: _ => { st1 with currentTime := t0 }
  | [] => st1

/-! ## Spec-side predicates

These formalize the language of the specification (hop counts over the
edge relation) and are compared against the computations above. -/

/-- Two ids are joined by some edge, traversed in either direction. -/
def linked (edges : List GraphEdge) (a b : String) : Prop :=
  ∃ e ∈ edges, (e.source = a ∧ e.target = b) ∨ (e.source = b ∧ e.target = a)

/-- An id is within two edge hops of the focus id: it is the focus itself,
directly linked to it, or linked to some id that is linked to the focus. -/
def withinTwoHops (edges : List GraphEdge) (focusId b : String) : Prop :=
  b = focusId ∨ linked edges focusId b ∨
    ∃ y, linked edges focusId y ∧ linked edges y b

/-! ## Concrete snapshots used by witnesses and counterexamples -/

/-- A minimal node with the given id and size; the remaining fields take
innocuous defaults. -/
def mkNode (i : String) (sz : ℚ) : GraphNode :=
  { id := i, label := i, x := 0, y := 0, size := sz, color := "",
    timestamps := [], description := "", category := "definition",
    isActive := false }

/-! ## Theorems -/

/-- C1: on every clock tick at playback time `t`, the recomputed `isActive`
flag of a node is `true` iff some element of its `timestamps` satisfies
`|ts - t| < window`, with window 15 in the main synchronized view
(`EduGraph.tsx`) and 5 in the single-video detail page (`VideoView.tsx`);
a timestamp exactly at distance `window` does not activate the node (the
window is exclusive). -/
theorem activation_window_spec (t : ℚ) (n : GraphNode) :
    ((activateNode 15 t n).isActive = true ↔ ∃ ts ∈ n.timestamps, |ts - t| < 15)
  ∧ ((activateNode 5 t n).isActive = true ↔ ∃ ts ∈ n.timestamps, |ts - t| < 5)
  ∧ (∀ ns, eduGraphUpdateNodes t ns = ns.map (activateNode 15 t))
  ∧ (∀ ns, videoViewUpdateNodes t ns = ns.map (activateNode 5 t))
  ∧ (∀ window : ℚ, (∀ ts ∈ n.timestamps, |ts - t| = window) →
      (activateNode window t n).isActive = false) := by
  refine ⟨?_, ?_, fun _ => rfl, fun _ => rfl, ?_⟩
  · simp [activateNode, List.any_eq_true]
  · simp [activateNode, List.any_eq_true]
  · intro window h
    simp only [activateNode, List.any_eq_false, decide_eq_true_eq]
    intro ts hts
    rw [h ts hts]
    exact lt_irrefl window

/-- Witness for C1, the scenario of the specification: at tick `t = 12` a
node with timestamps `[0, 20]` is active under the 15-second window
(`|20 - 12| = 8 < 15`), and a node whose only timestamp is exactly on the
boundary (`|27 - 12| = 15`) stays inactive. -/
theorem activation_window_spec_witness :
    (activateNode 15 12 { mkNode "ml" 18 with timestamps := [0, 20] }).isActive = true
  ∧ (activateNode 15 12 { mkNode "b" 10 with timestamps := [27] }).isActive = false := by
  constructor
  · exact (activation_window_spec 12 _).1.mpr ⟨20, by norm_num⟩
  · exact (activation_window_spec 12 _).2.2.2.2 15 (by
      intro ts hts
      simp only [List.mem_singleton] at hts
      subst hts
      norm_num)

/-- C4 counterexample: while the view is `Detail("a")`, clicking the node
with id `"b"` does not move the detail focus to `"b"`; the handler changes
the view mode only from overview. -/
theorem detail_click_counterexample :
    clickViewTransition (ViewModeT.detailed "a") "b" ≠ ViewModeT.detailed "b" := by
  decide

/-- C4 amended: a node click received while in `Detail(x)` leaves the view
in `Detail(x)` unchanged (no refocus, no new neighborhood); only a click
received in overview mode transitions to `Detail(clicked-node.id)`. -/
theorem click_transition_spec (x clickedId : String) :
    clickViewTransition (ViewModeT.detailed x) clickedId = ViewModeT.detailed x
  ∧ clickViewTransition ViewModeT.overview clickedId = ViewModeT.detailed clickedId :=
  ⟨rfl, rfl⟩

/-- C5: four consecutive zoom-in button presses starting from scale 1
drive the scale to `1.5^4 = 5.0625`, strictly above the `4.0` bound the
specification promises, because the buttons act through a freshly
constructed `d3.zoom()` behavior that lacks the `scaleExtent([0.1, 4])`
configured in `initializeGraph`. -/
theorem zoom_buttons_escape_extent :
    handleZoomIn (handleZoomIn (handleZoomIn (handleZoomIn 1))) = 81 / 16
  ∧ ¬ handleZoomIn (handleZoomIn (handleZoomIn (handleZoomIn 1))) ≤ 4 := by
  constructor
  · norm_num [handleZoomIn]
  · norm_num [handleZoomIn]

/-- C6: for every pre-call zoom scale `s`, the scale computed by
`focusOnNode` lies in `[1.2, 2.0]`, and when `s < 1.2` it is not below `s`
(focusing never zooms out from an already-low zoom level). -/
theorem focus_scale_spec (s : ℚ) :
    6/5 ≤ focusTargetScale s ∧ focusTargetScale s ≤ 2
  ∧ (s < 6/5 → s ≤ focusTargetScale s) := by
  have h1 : (6/5 : ℚ) ≤ focusTargetScale s :=
    le_min (by norm_num) (le_max_left _ _)
  exact ⟨h1, min_le_left _ _, fun hs => (hs.trans_le h1).le⟩

/-- Witness for C6 at the concrete pre-call scale `1 < 1.2`: the produced
scale is at least the pre-call scale. -/
theorem focus_scale_spec_witness :
    (1 : ℚ) < 6/5 ∧ (1 : ℚ) ≤ focusTargetScale 1 :=
  ⟨by norm_num, (focus_scale_spec 1).2.2 (by norm_num)⟩

/-- C10: the click handler always records the clicked node as selected;
it seeks playback to `timestamps[0]` only when the node has at least one
timestamp, and a click on a node with an empty `timestamps` list leaves
the current playback time (indeed the whole remaining state) unchanged. -/
theorem node_click_spec (st : ClickState) (node : GraphNode) :
    (handleNodeClick st node).selectedNode = some node
  ∧ (node.timestamps = [] →
      handleNodeClick st node = { st with selectedNode := some node })
  ∧ (∀ t0 rest, node.timestamps = t0 :: rest →
      (handleNodeClick st node).currentTime = t0) := by
  refine ⟨?_, ?_, ?_⟩
  · unfold handleNodeClick
    rcases node.timestamps with _ | ⟨t0, rest⟩ <;> rfl
  · intro h
    unfold handleNodeClick
    rw [h]
  · intro t0 rest h
    unfold handleNodeClick
    rw [h]

/-- Witness for C10: clicking a node with timestamps `[30, 90]` seeks to
`30`; clicking a node with no timestamps keeps `currentTime = 42` and only
changes the selection. -/
theorem node_click_spec_witness :
    (handleNodeClick ⟨42, none⟩ { mkNode "ai" 20 with timestamps := [30, 90] }).currentTime = 30
  ∧ handleNodeClick ⟨42, none⟩ (mkNode "empty" 5) =
      { currentTime := 42, selectedNode := some (mkNode "empty" 5) } :=
  ⟨(node_click_spec ⟨42, none⟩ _).2.2 30 [90] rfl,
   (node_click_spec ⟨42, none⟩ _).2.1 rfl⟩

/-! ### Lemmas about the stable size-descending sort -/

theorem mem_insertBySize {x a : GraphNode} {l : List GraphNode} :
    x ∈ insertBySize a l ↔ x = a ∨ x ∈ l := by
  induction l with
  | nil => simp [insertBySize]
  | cons b l ih =>
    simp only [insertBySize]
    split
    · simp [List.mem_cons]
    · simp only [List.mem_cons, ih]
      tauto

theorem mem_sortBySizeDesc {x : GraphNode} {l : List GraphNode} :
    x ∈ sortBySizeDesc l ↔ x ∈ l := by
  induction l with
  | nil => simp [sortBySizeDesc]
  | cons a l ih =>
    simp only [sortBySizeDesc, mem_insertBySize, List.mem_cons, ih]

theorem pairwise_insertBySize {a : GraphNode} {l : List GraphNode}
    (h : l.Pairwise (fun p q => q.size ≤ p.size)) :
    (insertBySize a l).Pairwise (fun p q => q.size ≤ p.size) := by
  induction l with
  | nil => simp [insertBySize]
  | cons b l ih =>
    rcases List.pairwise_cons.mp h with ⟨hb, hl⟩
    simp only [insertBySize]
    split
    · rename_i hba
      refine List.pairwise_cons.mpr ⟨?_, h⟩
      intro c hc
      rcases List.mem_cons.mp hc with rfl | hcl
      · exact hba
      · exact (hb c hcl).trans hba
    · rename_i hba
      push_neg at hba
      refine List.pairwise_cons.mpr ⟨?_, ih hl⟩
      intro c hc
      rcases mem_insertBySize.mp hc with rfl | hcl
      · exact hba.le
      · exact hb c hcl

theorem pairwise_sortBySizeDesc (l : List GraphNode) :
    (sortBySizeDesc l).Pairwise (fun p q => q.size ≤ p.size) := by
  induction l with
  | nil => simp [sortBySizeDesc]
  | cons a l ih => exact pairwise_insertBySize ih

theorem sortBySizeDesc_eq_self {l : List GraphNode}
    (h : l.Pairwise (fun p q => q.size ≤ p.size)) : sortBySizeDesc l = l := by
  induction l with
  | nil => rfl
  | cons a l ih =>
    rcases List.pairwise_cons.mp h with ⟨ha, hl⟩
    rw [sortBySizeDesc, ih hl]
    cases l with
    | nil => rfl
    | cons b l =>
      rw [insertBySize, if_pos (ha b (List.mem_cons_self b l))]

theorem filter_insertBySize_pos {a : GraphNode} {l : List GraphNode} {s : ℚ}
    (h : a.size = s) :
    (insertBySize a l).filter (fun x => decide (x.size = s)) =
      a :: l.filter (fun x => decide (x.size = s)) := by
  induction l with
  | nil => simp [insertBySize, h]
  | cons b l ih =>
    simp only [insertBySize]
    split
    · simp [List.filter_cons, h]
    · rename_i hba
      push_neg at hba
      have hb : ¬ b.size = s := (h ▸ hba).ne'
      simp [List.filter_cons, hb, ih]

theorem filter_insertBySize_neg {a : GraphNode} {l : List GraphNode} {s : ℚ}
    (h : ¬ a.size = s) :
    (insertBySize a l).filter (fun x => decide (x.size = s)) =
      l.filter (fun x => decide (x.size = s)) := by
  induction l with
  | nil => simp [insertBySize, h]
  | cons b l ih =>
    simp only [insertBySize]
    split
    · simp [List.filter_cons, h]
    · simp [List.filter_cons, ih]

theorem filter_sortBySizeDesc (l : List GraphNode) (s : ℚ) :
    (sortBySizeDesc l).filter (fun x => decide (x.size = s)) =
      l.filter (fun x => decide (x.size = s)) := by
  induction l with
  | nil => rfl
  | cons a l ih =>
    by_cases h : a.size = s
    · rw [sortBySizeDesc, filter_insertBySize_pos h, ih, List.filter_cons,
        if_pos (by simpa using h)]
    · rw [sortBySizeDesc, filter_insertBySize_neg h, ih, List.filter_cons,
        if_neg (by simpa using h)]

theorem firstOrderPred_iff (edges : List GraphEdge) (n : GraphNode) :
    firstOrderPred edges n = true ↔
      (¬ ∃ e ∈ edges, e.target = n.id) ∨ n.category = "prerequisite"
        ∨ 18 ≤ n.size := by
  simp only [firstOrderPred, incomingTargets, not_exists]
  simp
  tauto

/-- C2: a node appears in the first-order (overview) sequence iff it is a
snapshot node with no incoming edge, or with category `prerequisite`, or
with `size ≥ 18`; the sequence is sorted descending by size; and for every
size value the sequence lists the nodes of that size in original snapshot
order (stability of the sort, hence ties keep snapshot order). -/
theorem first_order_nodes_spec (nodes : List GraphNode) (edges : List GraphEdge) :
    (∀ x, x ∈ firstOrderNodes nodes edges ↔
        x ∈ nodes ∧ ((¬ ∃ e ∈ edges, e.target = x.id)
          ∨ x.category = "prerequisite" ∨ 18 ≤ x.size))
  ∧ (firstOrderNodes nodes edges).Pairwise (fun p q => q.size ≤ p.size)
  ∧ (∀ s : ℚ, (firstOrderNodes nodes edges).filter (fun x => decide (x.size = s)) =
      (nodes.filter (firstOrderPred edges)).filter (fun x => decide (x.size = s))) := by
  refine ⟨?_, pairwise_sortBySizeDesc _, fun s => filter_sortBySizeDesc _ s⟩
  intro x
  rw [firstOrderNodes, mem_sortBySizeDesc, List.mem_filter, firstOrderPred_iff]

/-- C7 counterexample: for the snapshot with the single (large, rootless)
node of size 20 and no edges, the first-order computation returns the
whole node list, so its output is not a strict subset of the snapshot's
nodes. -/
theorem first_order_strict_subset_counterexample :
    firstOrderNodes [mkNode "a" 20] [] = [mkNode "a" 20]
  ∧ ¬ ∃ x ∈ [mkNode "a" 20], x ∉ firstOrderNodes [mkNode "a" 20] [] := by
  have h1 : firstOrderNodes [mkNode "a" 20] [] = [mkNode "a" 20] := rfl
  refine ⟨h1, ?_⟩
  rintro ⟨x, hx, hnx⟩
  rw [h1] at hnx
  exact hnx hx

/-- C7 amended: the first-order computation is idempotent (recomputing on
its own output, with the same snapshot edges, returns the same sequence),
its output is a subset — not in general a strict one — of the snapshot's
nodes, and it is sorted descending by size. -/
theorem first_order_algebraic_spec (nodes : List GraphNode) (edges : List GraphEdge) :
    firstOrderNodes (firstOrderNodes nodes edges) edges = firstOrderNodes nodes edges
  ∧ (∀ x ∈ firstOrderNodes nodes edges, x ∈ nodes)
  ∧ (firstOrderNodes nodes edges).Pairwise (fun p q => q.size ≤ p.size) := by
  refine ⟨?_, ?_, pairwise_sortBySizeDesc _⟩
  · have hfilter : (firstOrderNodes nodes edges).filter (firstOrderPred edges) =
        firstOrderNodes nodes edges := by
      rw [List.filter_eq_self]
      intro x hx
      rw [firstOrderNodes, mem_sortBySizeDesc, List.mem_filter] at hx
      exact hx.2
    rw [firstOrderNodes, hfilter]
    exact sortBySizeDesc_eq_self (pairwise_sortBySizeDesc _)
  · intro x hx
    rw [firstOrderNodes, mem_sortBySizeDesc, List.mem_filter] at hx
    exact hx.1

/-! ### Lemmas about the neighborhood expansion -/

theorem mem_endpointsOfIncident {edges : List GraphEdge} {x z : String} :
    z ∈ endpointsOfIncident edges x ↔
      ∃ e ∈ edges, (e.source = x ∨ e.target = x) ∧ (z = e.source ∨ z = e.target) := by
  simp only [endpointsOfIncident, List.mem_flatMap, List.mem_filter, incident,
    Bool.or_eq_true, beq_iff_eq, List.mem_cons, List.mem_singleton,
    List.not_mem_nil, or_false]
  constructor
  · rintro ⟨e, ⟨he, hinc⟩, hz⟩
    exact ⟨e, he, hinc, hz⟩
  · rintro ⟨e, he, hinc, hz⟩
    exact ⟨e, ⟨he, hinc⟩, hz⟩

theorem endpoints_sub {edges : List GraphEdge} {x z : String}
    (h : z ∈ endpointsOfIncident edges x) : z = x ∨ linked edges x z := by
  rcases mem_endpointsOfIncident.mp h with ⟨e, he, hinc, hz⟩
  rcases hinc with hsx | htx <;> rcases hz with rfl | rfl
  · exact Or.inl hsx
  · exact Or.inr ⟨e, he, Or.inl ⟨hsx, rfl⟩⟩
  · exact Or.inr ⟨e, he, Or.inr ⟨rfl, htx⟩⟩
  · exact Or.inl htx

theorem linked_mem_endpoints {edges : List GraphEdge} {x z : String}
    (h : linked edges x z) : z ∈ endpointsOfIncident edges x := by
  rcases h with ⟨e, he, ⟨hsx, htz⟩ | ⟨hsz, htx⟩⟩
  · exact mem_endpointsOfIncident.mpr ⟨e, he, Or.inl hsx, Or.inr htz.symm⟩
  · exact mem_endpointsOfIncident.mpr ⟨e, he, Or.inr htx, Or.inl hsz.symm⟩

theorem mem_connectedIds {edges : List GraphEdge} {f z : String} :
    z ∈ connectedIds edges f ↔ z = f ∨ z ∈ endpointsOfIncident edges f := by
  simp [connectedIds]

theorem mem_allConnectedIds {edges : List GraphEdge} {f z : String} :
    z ∈ allConnectedIds edges f ↔ withinTwoHops edges f z := by
  constructor
  · intro h
    rcases List.mem_append.mp h with hc | hs
    · rcases mem_connectedIds.mp hc with rfl | hend
      · exact Or.inl rfl
      · rcases endpoints_sub hend with rfl | hl
        · exact Or.inl rfl
        · exact Or.inr (Or.inl hl)
    · rcases List.mem_flatMap.mp hs with ⟨y, hy, hz⟩
      have hy2 : y = f ∨ linked edges f y := by
        rcases mem_connectedIds.mp hy with rfl | hend
        · exact Or.inl rfl
        · exact endpoints_sub hend
      have hz2 : z = y ∨ linked edges y z := endpoints_sub hz
      rcases hy2 with rfl | hfy <;> rcases hz2 with rfl | hyz
      · exact Or.inl rfl
      · exact Or.inr (Or.inl hyz)
      · exact Or.inr (Or.inl hfy)
      · exact Or.inr (Or.inr ⟨y, hfy, hyz⟩)
  · intro h
    rcases h with rfl | hl | ⟨y, hfy, hyz⟩
    · exact List.mem_append.mpr (Or.inl (mem_connectedIds.mpr (Or.inl rfl)))
    · exact List.mem_append.mpr
        (Or.inl (mem_connectedIds.mpr (Or.inr (linked_mem_endpoints hl))))
    · refine List.mem_append.mpr (Or.inr (List.mem_flatMap.mpr ⟨y, ?_, ?_⟩))
      · exact mem_connectedIds.mpr (Or.inr (linked_mem_endpoints hfy))
      · exact linked_mem_endpoints hyz

/-- C3: for a focus id that exists in the snapshot, the detail
neighborhood contains the focus node; a snapshot node belongs to it iff
its id is within two edge hops of the focus (edges traversed in either
direction, so neither a node beyond two hops nor one within them is
misclassified); and, provided every edge endpoint references an existing
node id (the snapshot invariant of the data model), its edge set is
exactly the snapshot edges whose both endpoints lie in the neighborhood's
node set. -/
theorem detail_neighborhood_spec (nodes : List GraphNode) (edges : List GraphEdge)
    (focusId : String)
    (hfocus : ∃ n ∈ nodes, n.id = focusId)
    (hwf : ∀ e ∈ edges, (∃ n ∈ nodes, n.id = e.source) ∧ (∃ n ∈ nodes, n.id = e.target)) :
    (∃ n ∈ (getDetailedNodes nodes edges focusId).1, n.id = focusId)
  ∧ (∀ n ∈ nodes,
      (n ∈ (getDetailedNodes nodes edges focusId).1 ↔ withinTwoHops edges focusId n.id))
  ∧ (∀ e, e ∈ (getDetailedNodes nodes edges focusId).2 ↔
      e ∈ edges ∧ (∃ a ∈ (getDetailedNodes nodes edges focusId).1, a.id = e.source)
        ∧ (∃ b ∈ (getDetailedNodes nodes edges focusId).1, b.id = e.target)) := by
  obtain ⟨n0, hn0, hid0⟩ := hfocus
  have hfind : (nodes.find? (fun n => n.id == focusId)).isSome := by
    rw [List.find?_isSome]
    exact ⟨n0, hn0, by simpa using hid0⟩
  obtain ⟨n1, hfind1⟩ := Option.isSome_iff_exists.mp hfind
  have hnodes : (getDetailedNodes nodes edges focusId).1 =
      nodes.filter (fun n => (allConnectedIds edges focusId).contains n.id) := by
    rw [getDetailedNodes, hfind1]
  have hedges : (getDetailedNodes nodes edges focusId).2 =
      edges.filter (fun e => (allConnectedIds edges focusId).contains e.source
        && (allConnectedIds edges focusId).contains e.target) := by
    rw [getDetailedNodes, hfind1]
  have hmemnodes : ∀ n : GraphNode, n ∈ (getDetailedNodes nodes edges focusId).1 ↔
      n ∈ nodes ∧ withinTwoHops edges focusId n.id := by
    intro n
    rw [hnodes, List.mem_filter, List.elem_iff, mem_allConnectedIds]
  refine ⟨?_, ?_, ?_⟩
  · exact ⟨n0, (hmemnodes n0).mpr ⟨hn0, Or.inl hid0⟩, hid0⟩
  · intro n hn
    rw [hmemnodes]
    exact and_iff_right hn
  · intro e
    rw [hedges, List.mem_filter, Bool.and_eq_true, List.elem_iff, List.elem_iff,
      mem_allConnectedIds, mem_allConnectedIds]
    constructor
    · rintro ⟨he, hsrc, htgt⟩
      obtain ⟨⟨a, ha, haid⟩, ⟨b, hb, hbid⟩⟩ := hwf e he
      refine ⟨he, ⟨a, ?_, haid⟩, ⟨b, ?_, hbid⟩⟩
      · exact (hmemnodes a).mpr ⟨ha, haid ▸ hsrc⟩
      · exact (hmemnodes b).mpr ⟨hb, hbid ▸ htgt⟩
    · rintro ⟨he, ⟨a, ha, haid⟩, ⟨b, hb, hbid⟩⟩
      refine ⟨he, ?_, ?_⟩
      · exact haid ▸ ((hmemnodes a).mp ha).2
      · exact hbid ▸ ((hmemnodes b).mp hb).2

/-- A four-node chain snapshot used to witness the neighborhood theorems:
nodes `a, b, c, d` with edges `a→b→c→d`. -/
def chainNodes : List GraphNode :=
  [mkNode "a" 10, mkNode "b" 10, mkNode "c" 10, mkNode "d" 10]

/-- Edges of the chain snapshot. -/
def chainEdges : List GraphEdge :=
  [{ source := "a", target := "b", type := "related", strength := 1 },
   { source := "b", target := "c", type := "related", strength := 1 },
   { source := "c", target := "d", type := "related", strength := 1 }]

/-- Witness for C3 on the chain snapshot with focus `"a"`: the computed
neighborhood contains the focus node itself. -/
theorem detail_neighborhood_spec_witness :
    ∃ n ∈ (getDetailedNodes chainNodes chainEdges "a").1, n.id = "a" :=
  (detail_neighborhood_spec chainNodes chainEdges "a" (by decide) (by decide)).1

/-- C9: requesting the detail neighborhood for a focus id that does not
exist in the snapshot yields empty node and edge sets (a defined value,
not an exception). -/
theorem missing_focus_spec (nodes : List GraphNode) (edges : List GraphEdge)
    (focusId : String) (h : ∀ n ∈ nodes, n.id ≠ focusId) :
    getDetailedNodes nodes edges focusId = ([], []) := by
  have hfind : nodes.find? (fun n => n.id == focusId) = none := by
    rw [List.find?_eq_none]
    intro n hn
    simpa using h n hn
  rw [getDetailedNodes, hfind]

/-- Witness for C9: the chain snapshot holds no node with id `"ghost"`,
and the neighborhood computation for it returns the empty pair. -/
theorem missing_focus_spec_witness :
    getDetailedNodes chainNodes chainEdges "ghost" = ([], []) :=
  missing_focus_spec chainNodes chainEdges "ghost" (by decide)

/-- A node whose single timestamp 100 is far outside the 15-second window
of tick `t = 0`, with `isActive` already `false`. -/
def farNode : GraphNode := { mkNode "far" 10 with timestamps := [100] }

/-- A node whose single timestamp 5 is inside the 15-second window of tick
`t = 0`, with `isActive` still `false`. -/
def nearNode : GraphNode := { mkNode "near" 10 with timestamps := [5] }

theorem activate_farNode : activateNode 15 0 farNode = farNode := by
  simp only [activateNode, farNode, mkNode]
  norm_num

theorem activate_nearNode :
    (activateNode 15 0 nearNode).isActive = true ∧ nearNode.isActive = false := by
  constructor
  · simp only [activateNode, nearNode, mkNode]
    norm_num
  · rfl

/-- C8 counterexample: at tick `t = 0` with a single node whose only
timestamp is 100 and whose `isActive` is already (correctly) `false`, the
recomputation changes nothing, yet the `handleTimeUpdate` of
`src/components/EduGraph.tsx` still calls `setVideoData` with a freshly
built object — the shared state is replaced (and a re-render triggered)
although no node's `isActive` changed. -/
theorem unguarded_tick_counterexample :
    eduGraphUpdateNodes 0 [farNode] = [farNode]
  ∧ (eduGraphTick 0 [farNode]).2 = true := by
  constructor
  · simp [eduGraphUpdateNodes, activate_farNode]
  · rfl

/-- C8 amended: the guarded `handleTimeUpdate` variant (`unnamed/part_000`)
leaves the shared node state untouched and triggers no state update when no
node's recomputed `isActive` differs from its current value, and replaces
the state with the recomputed nodes exactly when some node's `isActive`
changed; the `handleTimeUpdate` of `src/components/EduGraph.tsx` instead
calls `setVideoData` on every tick. -/
theorem guarded_tick_spec (t : ℚ) (ns : List GraphNode) :
    ((∀ p ∈ (eduGraphUpdateNodes t ns).zip ns, p.1.isActive = p.2.isActive) →
      guardedTick t ns = (ns, false))
  ∧ ((∃ p ∈ (eduGraphUpdateNodes t ns).zip ns, p.1.isActive ≠ p.2.isActive) →
      guardedTick t ns = (eduGraphUpdateNodes t ns, true))
  ∧ (eduGraphTick t ns).2 = true := by
  refine ⟨?_, ?_, rfl⟩
  · intro hall
    have hfalse : ((eduGraphUpdateNodes t ns).zip ns).any
        (fun p => p.1.isActive != p.2.isActive) = false := by
      rw [List.any_eq_false]
      intro p hp
      simp [bne_iff_ne, hall p hp]
    simp [guardedTick, hfalse]
  · rintro ⟨p, hp, hne⟩
    have htrue : ((eduGraphUpdateNodes t ns).zip ns).any
        (fun p => p.1.isActive != p.2.isActive) = true :=
      List.any_eq_true.mpr ⟨p, hp, by simpa [bne_iff_ne] using hne⟩
    simp [guardedTick, htrue]

/-- Witness for C8 at concrete ticks: with a node whose timestamp 100 is
far from `t = 0` the guarded tick reports no update, and with a node whose
timestamp 5 is inside the 15-second window of `t = 0` (so its `isActive`
flips from `false` to `true`) the guarded tick replaces the nodes and
reports an update. -/
theorem guarded_tick_spec_witness :
    guardedTick 0 [farNode] = ([farNode], false)
  ∧ guardedTick 0 [nearNode] = (eduGraphUpdateNodes 0 [nearNode], true) := by
  constructor
  · refine (guarded_tick_spec 0 [farNode]).1 ?_
    intro p hp
    have hzip : (eduGraphUpdateNodes 0 [farNode]).zip [farNode] =
        [(farNode, farNode)] := by
      simp [eduGraphUpdateNodes, activate_farNode]
    rw [hzip] at hp
    simp only [List.mem_singleton] at hp
    subst hp
    rfl
  · refine (guarded_tick_spec 0 [nearNode]).2.1 ?_
    refine ⟨(activateNode 15 0 nearNode, nearNode), ?_, ?_⟩
    · simp [eduGraphUpdateNodes]
    · rw [activate_nearNode.1, activate_nearNode.2]
      simp

end EduGraph
